import Mathlib

/-!
Shallow embedding of the `mltools` repository (files `libtransformer.py` and
`libscore.py`).

An entry of an input pandas Series is modelled as `Tensor`: a shape tuple
together with row-major (C-order) flat data, exactly the information a numpy
array carries that the transformer code inspects.  Python exceptions are
modelled with `Except`; the mutable field `self.shape` of `ExtractTensor`
(which in Python can hold `None`, a shape tuple, or the float `nan` produced
by `Series.max()` on an empty series) is modelled by `ShapeVal`, and
`ExtractTensor.transform` returns the updated object state next to its result.
-/

/-- A numpy array: `shape` is the tuple `np.shape(a)`, `data` the row-major
(C-order) flat cell contents. A well-formed array has
`data.length = shape.prod`; theorems carry that as a hypothesis. -/
structure Tensor where
  shape : List Nat
  data : List Int
  deriving DecidableEq, Repr

/-- `np.shape` applied to an entry. -/
def np_shape (t : Tensor) : List Nat := t.shape

/-- Python's `<` on tuples of ints: lexicographic comparison, a strict prefix
being smaller.  This is the order `pandas.Series.max` uses when the series
holds shape tuples (object dtype). -/
def lexLt : List Nat → List Nat → Bool
  | [], [] => false
  | [], _ :: _ => true
  | _ :: _, [] => false
  | a :: as, b :: bs => a < b || (a == b && lexLt as bs)

/-- `pandas.Series.max()` on a series of shape tuples: a left fold with the
binary maximum for Python's tuple order; `none` models the `nan` returned for
an empty series. -/
def seriesMax (l : List (List Nat)) : Option (List Nat) :=
  l.foldl
    (fun acc s =>
      match acc with
      | none => some s
      | some m => if lexLt m s then some s else some m)
    none

/-- The shape computation on line 99 of `libtransformer.py`:
`x.apply(np.shape).max()`. -/
def computeTargetShape (X : List Tensor) : Option (List Nat) :=
  seriesMax (X.map np_shape)

/-- The possible contents of the Python attribute `self.shape` of
`ExtractTensor`: `None`, the `nan` that `Series.max()` yields on an empty
series, or an actual shape tuple. -/
inductive ShapeVal where
  | noneV : ShapeVal
  | nanV : ShapeVal
  | shapeV : List Nat → ShapeVal
  deriving DecidableEq, Repr

/-- The exceptions the transform can raise, one constructor per raising site:
`emptyInput` is the `TypeError` from `len(nan)` after an empty-input shape
computation, `typeError` the (unreachable) `len(None)`, `rankMismatch` the
`IndexError`/`ValueError` from `np.shape(s)[i]` / `np.pad` when an entry's
rank differs from the target's, `negativePadding` the `ValueError` from
`np.pad` on a negative pad width, and the two stack errors come from
`np.stack` on an empty collection or on entries of unequal shapes. -/
inductive ShapeError where
  | emptyInput : ShapeError
  | typeError : ShapeError
  | rankMismatch : ShapeError
  | negativePadding : ShapeError
  | stackEmpty : ShapeError
  | stackMismatch : ShapeError
  deriving DecidableEq, Repr

instance {ε α : Type} [DecidableEq ε] [DecidableEq α] : DecidableEq (Except ε α) :=
  fun x y => by
    cases x with
    | ok a =>
        cases y with
        | ok b =>
            exact if h : a = b then isTrue (by subst h; rfl)
              else isFalse (by intro hc; injection hc; contradiction)
        | error f => exact isFalse (by intro hc; exact Except.noConfusion hc)
    | error e =>
        cases y with
        | ok b => exact isFalse (by intro hc; exact Except.noConfusion hc)
        | error f =>
            exact if h : e = f then isTrue (by subst h; rfl)
              else isFalse (by intro hc; injection hc; contradiction)

/-- `np.pad(s, [(0, ts[i] - ss[i]) for i], mode='constant')` on row-major
data `d` of shape `ss`, padded to shape `ts`: along the first axis the first
`s` rows are padded recursively and `t - s` all-zero rows are appended after
them; nothing is ever prepended. -/
def padData : List Nat → List Nat → List Int → List Int
  | [], _, d => d
  | _ :: _, [], d => d
  | s :: ss, t :: ts, d =>
      (((List.range s).map
        (fun i => padData ss ts ((d.drop (i * ss.prod)).take ss.prod))).flatten)
        ++ List.replicate ((t - s) * ts.prod) 0

/-- Pointwise `≤` of two shape tuples (read on the zipped axes). -/
def fitsLe (a b : List Nat) : Bool := (a.zip b).all fun p => p.1 ≤ p.2

/-- Pointwise `<`: the multi-index `a` is in bounds for shape `b`. -/
def idxLt (a b : List Nat) : Bool := (a.zip b).all fun p => p.1 < p.2

/-- One entry's padding step (line 102-103 of `libtransformer.py`): the
`offset` list requires the entry's rank to equal the target rank (otherwise
`np.shape(s)[i]` or `np.pad` raises), and `np.pad` raises `ValueError` on a
negative pad width `ts[i] - ss[i]`. -/
def padTensor (ts : List Nat) (x : Tensor) : Except ShapeError Tensor :=
  if x.shape.length = ts.length then
    if fitsLe x.shape ts then
      .ok ⟨ts, padData x.shape ts x.data⟩
    else .error .negativePadding
  else .error .rankMismatch

/-- `x.apply(lambda s: np.pad(s, offset(s), mode='constant'))`: elementwise,
propagating the first exception. -/
def padAll (ts : List Nat) : List Tensor → Except ShapeError (List Tensor)
  | [] => .ok []
  | x :: xs =>
      match padTensor ts x with
      | .error e => .error e
      | .ok y =>
          match padAll ts xs with
          | .error e => .error e
          | .ok ys => .ok (y :: ys)

/-- `np.ndarray.flatten`: reshape to one axis holding every cell, row-major
order preserved. -/
def np_flatten (t : Tensor) : Tensor := ⟨[t.shape.prod], t.data⟩

/-- `np.reshape` to shape `ts` (used to state the flatten/unflatten
round-trip): defined when the cell count matches. -/
def np_reshape (ts : List Nat) (t : Tensor) : Except ShapeError Tensor :=
  if t.data.length = ts.prod then .ok ⟨ts, t.data⟩ else .error .stackMismatch

/-- `list(np.stack(...))`: raises on an empty collection or on entries of
unequal shapes, otherwise returns the entries themselves. -/
def np_stack : List Tensor → Except ShapeError (List Tensor)
  | [] => .error .stackEmpty
  | x :: xs =>
      if xs.all (fun y => y.shape == x.shape) then .ok (x :: xs)
      else .error .stackMismatch

/-- The `ExtractTensor` transformer object: its two constructor-set mutable
attributes. -/
structure ExtractTensor where
  flatten : Bool
  shape : ShapeVal
  deriving DecidableEq, Repr

/-- `ExtractTensor.__init__(flatten, shape)`. -/
def ExtractTensor.init (fl : Bool) (sh : Option (List Nat)) : ExtractTensor :=
  ⟨fl, match sh with
       | none => .noneV
       | some t => .shapeV t⟩

/-- Lines 98-99 of `libtransformer.py`: the value `self.shape` holds right
after `if self.shape is None: self.shape = x.apply(np.shape).max()`. -/
def resolvedShape (sv : ShapeVal) (X : List Tensor) : ShapeVal :=
  match sv with
  | .noneV =>
      match computeTargetShape X with
      | none => .nanV
      | some t => .shapeV t
  | s => s

/-- `ExtractTensor.transform` (lines 86-108 of `libtransformer.py`), returning
the object state after the call next to the returned value or exception:
if `self.shape is None` it is set to `x.apply(np.shape).max()`; if the stored
shape has positive length every entry is padded to it; finally the entries
(flattened first when `self.flatten` and the shape is non-scalar) are stacked
and listed. -/
def ExtractTensor.transform (et : ExtractTensor) (X : List Tensor) :
    ExtractTensor × Except ShapeError (List Tensor) :=
  let sv : ShapeVal := resolvedShape et.shape X
  let et' : ExtractTensor := ⟨et.flatten, sv⟩
  match sv with
  | .noneV => (et', .error .typeError)
  | .nanV => (et', .error .emptyInput)
  | .shapeV t =>
      if 0 < t.length then
        match padAll t X with
        | .error e => (et', .error e)
        | .ok xs =>
            if et.flatten then (et', np_stack (xs.map np_flatten))
            else (et', np_stack xs)
      else (et', np_stack X)

/-- `ExtractTensor.get_shape`: returns `self.shape` as it currently is. -/
def ExtractTensor.get_shape (et : ExtractTensor) : ShapeVal := et.shape

/-- Row-major flat index of the multi-index `ix` in an array of shape `ts`. -/
def flatIdx : List Nat → List Nat → Nat
  | t :: ts, i :: ix => i * ts.prod + flatIdx ts ix
  | _, _ => 0

/-- A row of a pandas dataframe: column name to numeric cell value. -/
def Row : Type := List (String × Int)

instance : DecidableEq Row := by
  unfold Row
  infer_instance

/-- The cell of row `r` in column `k`, `none` when the row carries no cell
for that column. -/
def colVal? (r : Row) (k : String) : Option Int :=
  (r.find? (fun p => p.1 == k)).map Prod.snd

/-- A pandas dataframe: its column index together with its rows.  The column
index exists independently of the rows (an empty frame still has columns),
and `x[key]` consults it: selecting a column absent from the index raises
`KeyError`. -/
structure DataFrame where
  cols : List String
  rows : List Row
  deriving DecidableEq

/-- Every row carries a cell for every column of the frame — true of any
actual pandas dataframe, where a cell exists for each (row, column) pair. -/
def DataFrame.wellFormed (df : DataFrame) : Bool :=
  df.rows.all (fun r => df.cols.all (fun k => (colVal? r k).isSome))

/-- The exception `x[key]` raises when `key` is not a column of the frame. -/
inductive DfError where
  | keyError : String → DfError
  deriving DecidableEq, Repr

/-- One row's entry of the boolean mask `x[key] >= v` / `x[key] <= v`:
the predicate `p` applied to the row's cell in column `k`.  Callers consult
the column index first; a row without the cell (impossible in a well-formed
frame whose index has the column) satisfies no mask. -/
def cellTest (p : Int → Bool) (k : String) (r : Row) : Bool :=
  ((colVal? r k).map p).getD false

/-- The loop of `RemoveOutliers.transform` (lines 49-51 of
`libtransformer.py`): for each key of the dictionary in order, `x[key]`
raises `KeyError` when the key is not a column of the frame; otherwise the
rows whose cell is at least the lower bound are kept, then of those the rows
whose cell is at most the upper bound. -/
def filterFold : List (String × Int × Int) → DataFrame → Except DfError DataFrame
  | [], x => .ok x
  | kv :: fd, x =>
      if x.cols.contains kv.1 then
        filterFold fd
          ⟨x.cols,
            (x.rows.filter (cellTest (fun v => decide (kv.2.1 ≤ v)) kv.1)).filter
              (cellTest (fun v => decide (v ≤ kv.2.2)) kv.1)⟩
      else .error (.keyError kv.1)

/-- The `RemoveOutliers` transformer object: its single attribute, the
(insertion-ordered) filter dictionary mapping a column to an interval. -/
structure RemoveOutliers where
  filter_dict : Option (List (String × Int × Int))

/-- `RemoveOutliers.transform` (lines 35-53 of `libtransformer.py`): with no
dictionary the (copied) input is returned; otherwise the per-key filtering
loop runs, raising `KeyError` on a key that is not a column. -/
def RemoveOutliers.transform (ro : RemoveOutliers) (X : DataFrame) :
    Except DfError DataFrame :=
  match ro.filter_dict with
  | none => .ok X
  | some fd => filterFold fd X

/-- A fitted Scikit search estimator as `ViewCV` reads it: `best_params_` and
the `cv_results_` table, one row per parameter setting, carrying the columns
`params`, `mean_test_score` and `std_test_score` that `ViewCV` touches.
Parameter settings are abstracted to an identifier; scores to integers. -/
structure SkEstimator where
  best_params : String
  cv_results : List (String × Int × Int)

/-- The `ViewCV` object (`libscore.py` lines 90-101). -/
structure ViewCV where
  estimator : SkEstimator
  best_parameters : String

/-- `ViewCV.__init__`. -/
def ViewCV.init (e : SkEstimator) : ViewCV := ⟨e, e.best_params⟩

/-- `ViewCV.results`: the `cv_results_` table as a dataframe. -/
def ViewCV.results (v : ViewCV) : List (String × Int × Int) :=
  v.estimator.cv_results

/-- `ViewCV.best_results` (called with parentheses): the rows whose `params`
equal `self.best_parameters`. -/
def ViewCV.best_results (v : ViewCV) : List (String × Int × Int) :=
  (v.results).filter (fun r => r.1 == v.best_parameters)

/-- The run-time Python values flowing through `test_mean`/`test_std`:
a numeric score, a dataframe, or a bound-method object (what an attribute
lookup of a method name on an instance returns when the method is not
called). -/
inductive PyVal where
  | pyNum : Int → PyVal
  | pyFrame : List (String × Int × Int) → PyVal
  | pyMethod : String → PyVal
  deriving DecidableEq, Repr

/-- The exceptions those expressions can raise. -/
inductive PyExn where
  | attributeError : String → PyExn
  | indexError : PyExn
  deriving DecidableEq, Repr

/-- Python attribute access `obj.loc`: a dataframe exposes its `loc` indexer
(modelled as the frame itself); any other object — in particular a
bound-method object — has no attribute `loc`, so the lookup raises
`AttributeError`. -/
def getattrLoc : PyVal → Except PyExn PyVal
  | .pyFrame rows => .ok (.pyFrame rows)
  | _ => .error (.attributeError "loc")

/-- The rest of the chain `…[:, col].values[0]`: select the column given by
`sel` over all rows and take element `0`, which raises `IndexError` when the
frame has no rows. -/
def locColumnValuesZero (sel : String × Int × Int → Int) :
    PyVal → Except PyExn PyVal
  | .pyFrame rows =>
      match rows with
      | [] => .error .indexError
      | r :: _ => .ok (.pyNum (sel r))
  | _ => .error (.attributeError "values")

/-- `ViewCV.test_mean` (lines 125-133): the source reads
`self.best_results.loc[:, 'mean_test_score'].values[0]`; `self.best_results`
is the bound method itself (it is not called), so `.loc` is looked up on a
method object. -/
def ViewCV.test_mean (_v : ViewCV) : Except PyExn PyVal := do
  let l ← getattrLoc (.pyMethod "best_results")
  locColumnValuesZero (fun r => r.2.1) l

/-- `ViewCV.test_std` (lines 135-143): same shape as `test_mean` with the
`std_test_score` column. -/
def ViewCV.test_std (_v : ViewCV) : Except PyExn PyVal := do
  let l ← getattrLoc (.pyMethod "best_results")
  locColumnValuesZero (fun r => r.2.2) l

/-! ### Order properties of Python's tuple comparison -/

theorem lexLt_nil_right (a : List Nat) : lexLt a [] = false := by
  cases a <;> rfl

theorem lexLt_irrefl (a : List Nat) : lexLt a a = false := by
  induction a with
  | nil => rfl
  | cons a0 as ih => simp [lexLt, ih]

theorem lexLt_trans {a b c : List Nat} (hab : lexLt a b = true)
    (hbc : lexLt b c = true) : lexLt a c = true := by
  induction a generalizing b c with
  | nil =>
      cases c with
      | nil =>
          cases b with
          | nil => exact hab
          | cons b0 bs => rw [lexLt_nil_right] at hbc; exact absurd hbc (by simp)
      | cons c0 cs => rfl
  | cons a0 as ih =>
      cases b with
      | nil => rw [lexLt_nil_right] at hab; exact absurd hab (by simp)
      | cons b0 bs =>
          cases c with
          | nil => rw [lexLt_nil_right] at hbc; exact absurd hbc (by simp)
          | cons c0 cs =>
              simp only [lexLt, Bool.or_eq_true, Bool.and_eq_true, decide_eq_true_eq,
                beq_iff_eq] at hab hbc ⊢
              rcases hab with h1 | ⟨h1, h1'⟩ <;> rcases hbc with h2 | ⟨h2, h2'⟩
              · exact Or.inl (Nat.lt_trans h1 h2)
              · exact Or.inl (h2 ▸ h1)
              · exact Or.inl (h1 ▸ h2)
              · exact Or.inr ⟨h1.trans h2, ih h1' h2'⟩

theorem lexLt_trichotomy (a b : List Nat) :
    lexLt a b = true ∨ lexLt b a = true ∨ a = b := by
  induction a generalizing b with
  | nil =>
      cases b with
      | nil => exact Or.inr (Or.inr rfl)
      | cons b0 bs => exact Or.inl rfl
  | cons a0 as ih =>
      cases b with
      | nil => exact Or.inr (Or.inl rfl)
      | cons b0 bs =>
          rcases Nat.lt_trichotomy a0 b0 with h | h | h
          · exact Or.inl (by simp [lexLt, h])
          · subst h
            rcases ih bs with h' | h' | h'
            · exact Or.inl (by simp [lexLt, h'])
            · exact Or.inr (Or.inl (by simp [lexLt, h']))
            · exact Or.inr (Or.inr (by rw [h']))
          · exact Or.inr (Or.inl (by simp [lexLt, h]))

/-- Invariant of the `Series.max` left fold: starting from `some m0` it
returns an element of `m0 :: l` that no element of `m0 :: l` strictly
exceeds. -/
theorem seriesMax_foldl_spec (l : List (List Nat)) (m0 : List Nat) :
    ∃ m,
      l.foldl
        (fun acc s =>
          match acc with
          | none => some s
          | some m => if lexLt m s then some s else some m)
        (some m0) = some m ∧
      (m = m0 ∨ m ∈ l) ∧ lexLt m m0 = false ∧ ∀ s ∈ l, lexLt m s = false := by
  induction l generalizing m0 with
  | nil => exact ⟨m0, rfl, Or.inl rfl, lexLt_irrefl m0, by simp⟩
  | cons s l ih =>
      by_cases h : lexLt m0 s = true
      · obtain ⟨m, hm, hmem, hub0, hub⟩ := ih s
        refine ⟨m, by simpa [h] using hm, ?_, ?_, ?_⟩
        · rcases hmem with rfl | hmem
          · exact Or.inr (List.mem_cons_self _ _)
          · exact Or.inr (List.mem_cons_of_mem _ hmem)
        · cases hc : lexLt m m0 with
          | false => rfl
          | true => rw [lexLt_trans hc h] at hub0; exact absurd hub0 (by simp)
        · intro u hu
          rcases List.mem_cons.mp hu with rfl | hu
          · exact hub0
          · exact hub u hu
      · rw [Bool.not_eq_true] at h
        obtain ⟨m, hm, hmem, hub0, hub⟩ := ih m0
        refine ⟨m, by simpa [h] using hm, ?_, hub0, ?_⟩
        · rcases hmem with rfl | hmem
          · exact Or.inl rfl
          · exact Or.inr (List.mem_cons_of_mem _ hmem)
        · intro u hu
          rcases List.mem_cons.mp hu with rfl | hu
          · cases hc : lexLt m u with
            | false => rfl
            | true =>
                rcases lexLt_trichotomy m m0 with h' | h' | h'
                · rw [h'] at hub0; exact absurd hub0 (by simp)
                · rw [lexLt_trans h' hc] at h; exact absurd h (by simp)
                · subst h'; rw [hc] at h; exact absurd h (by simp)
          · exact hub u hu

/-- C1 (amended): on a non-empty collection the shape computed on line 99
(`x.apply(np.shape).max()`) is the lexicographically greatest of the entries'
shape tuples — an element of the list of shapes that no entry's shape
strictly exceeds in Python's tuple order.  For collections of uniform rank 1
this coincides with the per-axis maximum, so there the computed extent bounds
every entry's extent. -/
theorem computeTargetShape_lex_max (X : List Tensor) (hne : X ≠ []) :
    ∃ m, computeTargetShape X = some m ∧ m ∈ X.map np_shape ∧
      (∀ s ∈ X.map np_shape, lexLt m s = false) ∧
      ((∀ x ∈ X, x.shape.length = 1) →
        ∀ x ∈ X, x.shape.getD 0 0 ≤ m.getD 0 0) := by
  cases X with
  | nil => exact absurd rfl hne
  | cons x xs =>
      obtain ⟨m, hm, hmem, hub0, hub⟩ := seriesMax_foldl_spec (xs.map np_shape) (np_shape x)
      have hmem' : m ∈ (x :: xs).map np_shape := by
        rcases hmem with rfl | hmem
        · exact List.mem_cons_self _ _
        · exact List.mem_cons_of_mem _ hmem
      have hub' : ∀ s ∈ (x :: xs).map np_shape, lexLt m s = false := by
        intro s hs
        rcases List.mem_cons.mp hs with rfl | hs
        · exact hub0
        · exact hub s hs
      refine ⟨m, ?_, hmem', hub', ?_⟩
      · simpa [computeTargetShape, seriesMax] using hm
      · intro hrank y hy
        obtain ⟨z, hz, hzm⟩ := List.mem_map.mp hmem'
        have hmlen : m.length = 1 := by
          rw [← hzm]; exact hrank z hz
        have hylen : y.shape.length = 1 := hrank y hy
        have hmy : lexLt m (np_shape y) = false :=
          hub' (np_shape y) (List.mem_map_of_mem np_shape hy)
        cases m with
        | nil => simp at hmlen
        | cons m0 ms =>
            cases ms with
            | cons _ _ => simp at hmlen
            | nil =>
                cases hsy : y.shape with
                | nil => rw [hsy] at hylen; simp at hylen
                | cons s0 ss =>
                    cases ss with
                    | cons _ _ => rw [hsy] at hylen; simp at hylen
                    | nil =>
                        have : lexLt [m0] [s0] = false := by
                          rw [← hsy]; exact hmy
                        simp only [lexLt, lexLt_nil_right, Bool.and_false,
                          Bool.or_false, decide_eq_false_iff_not] at this
                        simp [hsy, Nat.le_of_not_lt this]

/-- C1 (counterexample): for the two rank-2 entries of shapes `(2,3)` and
`(3,1)` the computed shape is the lexicographic maximum `(3,1)`, whose
component at axis 1 is strictly below entry 0's extent 3 along axis 1 — it is
not the per-axis maximum `(3,3)`. -/
theorem computeTargetShape_not_elementwise_max :
    computeTargetShape
        [⟨[2, 3], [1, 2, 3, 4, 5, 6]⟩, ⟨[3, 1], [7, 8, 9]⟩] = some [3, 1] ∧
      ([3, 1] : List Nat).getD 1 0 <
        (Tensor.mk [2, 3] [1, 2, 3, 4, 5, 6]).shape.getD 1 0 := by
  decide

/-- Witness for `computeTargetShape_lex_max` at the concrete collection
`[⟨[2],[1,2]⟩, ⟨[3],[3,4,5]⟩]`. -/
theorem computeTargetShape_lex_max_witness :
    ∃ m, computeTargetShape [⟨[2], [1, 2]⟩, ⟨[3], [3, 4, 5]⟩] = some m ∧
      m ∈ ([⟨[2], [1, 2]⟩, ⟨[3], [3, 4, 5]⟩] : List Tensor).map np_shape ∧
      (∀ s ∈ ([⟨[2], [1, 2]⟩, ⟨[3], [3, 4, 5]⟩] : List Tensor).map np_shape,
        lexLt m s = false) ∧
      ((∀ x ∈ ([⟨[2], [1, 2]⟩, ⟨[3], [3, 4, 5]⟩] : List Tensor),
          x.shape.length = 1) →
        ∀ x ∈ ([⟨[2], [1, 2]⟩, ⟨[3], [3, 4, 5]⟩] : List Tensor),
          x.shape.getD 0 0 ≤ m.getD 0 0) :=
  computeTargetShape_lex_max [⟨[2], [1, 2]⟩, ⟨[3], [3, 4, 5]⟩] (by decide)

/-! ### Padding: length and cell-level characterisation -/

theorem fitsLe_cons (a b : Nat) (as bs : List Nat) :
    fitsLe (a :: as) (b :: bs) = (decide (a ≤ b) && fitsLe as bs) := by
  simp [fitsLe, List.zip_cons_cons, List.all_cons]

theorem idxLt_cons (a b : Nat) (as bs : List Nat) :
    idxLt (a :: as) (b :: bs) = (decide (a < b) && idxLt as bs) := by
  simp [idxLt, List.zip_cons_cons, List.all_cons]

theorem getD_drop_take (d : List Int) (a P r : Nat) (hr : r < P) :
    ((d.drop a).take P).getD r 0 = d.getD (a + r) 0 := by
  rw [List.getD_eq_getElem?_getD, List.getElem?_take_of_lt hr, List.getElem?_drop,
    ← List.getD_eq_getElem?_getD]

theorem flatten_getD_const (l : List (List Int)) (L j r : Nat)
    (hL : ∀ x ∈ l, x.length = L) (hj : j < l.length) (hr : r < L) :
    l.flatten.getD (j * L + r) 0 = (l.getD j []).getD r 0 := by
  induction l generalizing j with
  | nil => simp at hj
  | cons x l ih =>
      have hx : x.length = L := hL x (List.mem_cons_self _ _)
      cases j with
      | zero =>
          rw [List.flatten_cons]
          simp only [Nat.zero_mul, Nat.zero_add, List.getD_cons_zero]
          rw [List.getD_eq_getElem?_getD, List.getElem?_append_left (by omega),
            ← List.getD_eq_getElem?_getD]
      | succ j =>
          rw [List.flatten_cons]
          have harith : (j + 1) * L + r = x.length + (j * L + r) := by
            rw [hx]; ring
          rw [List.getD_eq_getElem?_getD, harith,
            List.getElem?_append_right (by omega)]
          have hsub : x.length + (j * L + r) - x.length = j * L + r := by omega
          rw [hsub, ← List.getD_eq_getElem?_getD, List.getD_cons_succ]
          exact ih j (fun y hy => hL y (List.mem_cons_of_mem _ hy)) (by simpa using hj)

theorem flatIdx_lt (ts ix : List Nat) (hlen : ix.length = ts.length)
    (hlt : idxLt ix ts = true) : flatIdx ts ix < ts.prod := by
  induction ts generalizing ix with
  | nil =>
      cases ix with
      | nil => simp [flatIdx]
      | cons _ _ => simp at hlen
  | cons t ts ih =>
      cases ix with
      | nil => simp at hlen
      | cons i ix =>
          rw [idxLt_cons, Bool.and_eq_true, decide_eq_true_eq] at hlt
          have h2 : flatIdx ts ix < ts.prod := ih ix (by simpa using hlen) hlt.2
          simp only [flatIdx, List.prod_cons]
          calc i * ts.prod + flatIdx ts ix < i * ts.prod + ts.prod := by omega
            _ = (i + 1) * ts.prod := by ring
            _ ≤ t * ts.prod := Nat.mul_le_mul_right _ hlt.1

theorem chunk_length (d : List Int) (s i P : Nat) (hd : d.length = s * P)
    (hi : i < s) : ((d.drop (i * P)).take P).length = P := by
  simp only [List.length_take, List.length_drop, hd]
  have h1 : s * P - i * P = (s - i) * P := (Nat.sub_mul s i P).symm
  have h2 : P ≤ (s - i) * P := by
    have : 1 * P ≤ (s - i) * P := Nat.mul_le_mul_right P (by omega)
    simpa using this
  omega

theorem padData_length (ss ts : List Nat) (d : List Int)
    (hlen : ss.length = ts.length) (hle : fitsLe ss ts = true)
    (hd : d.length = ss.prod) :
    (padData ss ts d).length = ts.prod := by
  induction ss generalizing ts d with
  | nil =>
      cases ts with
      | nil => simpa [padData] using hd
      | cons _ _ => simp at hlen
  | cons s ss ih =>
      cases ts with
      | nil => simp at hlen
      | cons t ts =>
          rw [fitsLe_cons, Bool.and_eq_true, decide_eq_true_eq] at hle
          simp only [padData, List.length_append, List.length_flatten,
            List.length_replicate, List.map_map]
          have hconst : (List.range s).map
              (List.length ∘ fun i => padData ss ts ((d.drop (i * ss.prod)).take ss.prod))
              = List.replicate s ts.prod := by
            apply List.eq_replicate_iff.mpr
            refine ⟨by simp, ?_⟩
            intro b hb
            obtain ⟨i, hi, rfl⟩ := List.mem_map.mp hb
            have hi' : i < s := List.mem_range.mp hi
            exact ih ts _ (by simpa using hlen) hle.2
              (chunk_length d s i ss.prod (by simpa [List.prod_cons] using hd) hi')
          rw [hconst, List.sum_replicate, smul_eq_mul, List.prod_cons,
            ← Nat.add_mul]
          congr 1
          omega

/-- Cell-level characterisation of the padding: at every in-bounds multi-index
of the target shape, the padded array holds the original value when the index
is within the original extents and zero otherwise — i.e. the original data
occupies the low-index corner and zeros are appended, never prepended. -/
theorem padData_getD (ss ts ix : List Nat) (d : List Int)
    (hlen : ss.length = ts.length) (hle : fitsLe ss ts = true)
    (hd : d.length = ss.prod)
    (hxlen : ix.length = ts.length) (hxlt : idxLt ix ts = true) :
    (padData ss ts d).getD (flatIdx ts ix) 0 =
      if idxLt ix ss = true then d.getD (flatIdx ss ix) 0 else 0 := by
  induction ss generalizing ts ix d with
  | nil =>
      cases ts with
      | cons _ _ => simp at hlen
      | nil =>
          cases ix with
          | cons _ _ => simp at hxlen
          | nil => simp [padData, flatIdx, idxLt]
  | cons s ss ih =>
      cases ts with
      | nil => simp at hlen
      | cons t ts =>
          cases ix with
          | nil => simp at hxlen
          | cons i ix =>
              rw [fitsLe_cons, Bool.and_eq_true, decide_eq_true_eq] at hle
              rw [idxLt_cons, Bool.and_eq_true, decide_eq_true_eq] at hxlt
              have hlen' : ss.length = ts.length := by simpa using hlen
              have hxlen' : ix.length = ts.length := by simpa using hxlen
              have hd' : d.length = s * ss.prod := by
                simpa [List.prod_cons] using hd
              have hr : flatIdx ts ix < ts.prod := flatIdx_lt ts ix hxlen' hxlt.2
              have hblocklen : ∀ x ∈ (List.range s).map
                  (fun i => padData ss ts ((d.drop (i * ss.prod)).take ss.prod)),
                  x.length = ts.prod := by
                intro x hx
                obtain ⟨i0, hi0, rfl⟩ := List.mem_map.mp hx
                exact padData_length ss ts _ hlen' hle.2
                  (chunk_length d s i0 ss.prod hd' (List.mem_range.mp hi0))
              have hflatlen : (((List.range s).map
                  (fun i => padData ss ts ((d.drop (i * ss.prod)).take ss.prod))).flatten).length
                  = s * ts.prod := by
                rw [List.length_flatten, List.map_map]
                have hconst : (List.range s).map
                    (List.length ∘ fun i => padData ss ts ((d.drop (i * ss.prod)).take ss.prod))
                    = List.replicate s ts.prod := by
                  apply List.eq_replicate_iff.mpr
                  refine ⟨by simp, ?_⟩
                  intro b hb
                  obtain ⟨i0, hi0, rfl⟩ := List.mem_map.mp hb
                  exact padData_length ss ts _ hlen' hle.2
                    (chunk_length d s i0 ss.prod hd' (List.mem_range.mp hi0))
                rw [hconst, List.sum_replicate, smul_eq_mul]
              simp only [padData, flatIdx]
              by_cases his : i < s
              · have hidx : i * ts.prod + flatIdx ts ix < s * ts.prod := by
                  calc i * ts.prod + flatIdx ts ix < i * ts.prod + ts.prod := by omega
                    _ = (i + 1) * ts.prod := by ring
                    _ ≤ s * ts.prod := Nat.mul_le_mul_right _ his
                rw [List.getD_eq_getElem?_getD,
                  List.getElem?_append_left (by rw [hflatlen]; exact hidx),
                  ← List.getD_eq_getElem?_getD]
                rw [flatten_getD_const _ ts.prod i _ hblocklen (by simpa using his) hr]
                have hgetblock : ((List.range s).map
                    (fun i => padData ss ts ((d.drop (i * ss.prod)).take ss.prod))).getD i []
                    = padData ss ts ((d.drop (i * ss.prod)).take ss.prod) := by
                  rw [List.getD_eq_getElem?_getD, List.getElem?_map,
                    List.getElem?_range his]
                  rfl
                rw [hgetblock]
                rw [ih ts ix _ hlen' hle.2 (chunk_length d s i ss.prod hd' his) hxlen' hxlt.2]
                by_cases hxs : idxLt ix ss = true
                · have hfi : flatIdx ss ix < ss.prod :=
                    flatIdx_lt ss ix (hxlen'.trans hlen'.symm) hxs
                  rw [if_pos hxs, getD_drop_take d (i * ss.prod) ss.prod _ hfi,
                    if_pos (by rw [idxLt_cons]; simp [his, hxs])]
                · rw [if_neg hxs, if_neg (by rw [idxLt_cons]; simp [hxs])]
              · have hge : s * ts.prod ≤ i * ts.prod + flatIdx ts ix :=
                  le_trans (Nat.mul_le_mul_right _ (by omega)) (Nat.le_add_right _ _)
                rw [List.getD_eq_getElem?_getD,
                  List.getElem?_append_right (by rw [hflatlen]; exact hge), hflatlen]
                have hlt2 : i * ts.prod + flatIdx ts ix - s * ts.prod
                    < (t - s) * ts.prod := by
                  have h1 : i * ts.prod + flatIdx ts ix < t * ts.prod := by
                    calc i * ts.prod + flatIdx ts ix < i * ts.prod + ts.prod := by omega
                      _ = (i + 1) * ts.prod := by ring
                      _ ≤ t * ts.prod := Nat.mul_le_mul_right _ hxlt.1
                  have h2 : (t - s) * ts.prod = t * ts.prod - s * ts.prod :=
                    Nat.sub_mul t s ts.prod
                  omega
                rw [List.getElem?_replicate_of_lt hlt2]
                rw [if_neg (by rw [idxLt_cons]; simp [his])]
                rfl

theorem flatten_chunks (s P : Nat) (d : List Int) (hd : d.length = s * P) :
    ((List.range s).map (fun i => (d.drop (i * P)).take P)).flatten = d := by
  induction s generalizing d with
  | zero =>
      have : d = [] := List.length_eq_zero.mp (by simpa using hd)
      simp [this]
  | succ s ih =>
      rw [List.range_succ_eq_map, List.map_cons, List.map_map, List.flatten_cons]
      have h0 : (d.drop (0 * P)).take P = d.take P := by simp
      have hcomp : (List.range s).map
          ((fun i => (d.drop (i * P)).take P) ∘ Nat.succ)
          = (List.range s).map (fun i => ((d.drop P).drop (i * P)).take P) := by
        apply List.map_congr_left
        intro i _
        simp only [Function.comp_apply]
        rw [List.drop_drop]
        have : i.succ * P = P + i * P := by
          rw [Nat.succ_eq_add_one]
          ring
        rw [this]
      have hd' : (d.drop P).length = s * P := by
        have hexp : (s + 1) * P = s * P + P := by ring
        simp only [List.length_drop, hd, hexp]
        omega
      rw [h0, hcomp, ih (d.drop P) hd']
      exact List.take_append_drop P d

theorem padData_self (ss : List Nat) (d : List Int) (hd : d.length = ss.prod) :
    padData ss ss d = d := by
  induction ss generalizing d with
  | nil => rfl
  | cons s ss ih =>
      have hd' : d.length = s * ss.prod := by simpa [List.prod_cons] using hd
      simp only [padData, Nat.sub_self, Nat.zero_mul, List.replicate_zero,
        List.append_nil]
      have hblocks : (List.range s).map
          (fun i => padData ss ss ((d.drop (i * ss.prod)).take ss.prod))
          = (List.range s).map (fun i => (d.drop (i * ss.prod)).take ss.prod) := by
        apply List.map_congr_left
        intro i hi
        exact ih _ (chunk_length d s i ss.prod hd' (List.mem_range.mp hi))
      rw [hblocks]
      exact flatten_chunks s ss.prod d hd'

/-! ### The elementwise padding pass and stacking -/

theorem padAll_ok (ts : List Nat) (X : List Tensor)
    (h : ∀ x ∈ X, x.shape.length = ts.length ∧ fitsLe x.shape ts = true) :
    padAll ts X = .ok (X.map (fun x => ⟨ts, padData x.shape ts x.data⟩)) := by
  induction X with
  | nil => rfl
  | cons x xs ih =>
      have hx := h x (List.mem_cons_self _ _)
      have hxs := fun y hy => h y (List.mem_cons_of_mem _ hy)
      simp only [padAll, padTensor, if_pos hx.1, hx.2, if_pos rfl, ih hxs,
        List.map_cons]
      rfl

theorem padAll_ok_forall (ts : List Nat) (X : List Tensor) (ys : List Tensor)
    (h : padAll ts X = .ok ys) :
    ∀ x ∈ X, ∃ y, padTensor ts x = .ok y := by
  induction X generalizing ys with
  | nil => simp
  | cons x xs ih =>
      intro z hz
      rcases List.mem_cons.mp hz with rfl | hz
      · cases hpt : padTensor ts z with
        | ok y => exact ⟨y, rfl⟩
        | error e => rw [padAll, hpt] at h; exact Except.noConfusion h
      · cases hpt : padTensor ts x with
        | error e => rw [padAll, hpt] at h; exact Except.noConfusion h
        | ok y =>
            rw [padAll, hpt] at h
            cases hpa : padAll ts xs with
            | error e =>
                rw [hpa] at h
                exact Except.noConfusion h
            | ok ys' => exact ih ys' hpa z hz

theorem np_stack_ok (xs : List Tensor) (hne : xs ≠ []) (t : List Nat)
    (h : ∀ x ∈ xs, x.shape = t) : np_stack xs = .ok xs := by
  cases xs with
  | nil => exact absurd rfl hne
  | cons x xs =>
      have hall : xs.all (fun y => y.shape == x.shape) = true := by
        apply List.all_eq_true.mpr
        intro y hy
        have h1 := h y (List.mem_cons_of_mem _ hy)
        have h2 := h x (List.mem_cons_self _ _)
        simp [h1, h2]
      simp [np_stack, hall]

/-! ### Evaluating the transform -/

theorem transform_fst (et : ExtractTensor) (X : List Tensor) :
    (ExtractTensor.transform et X).1 = ⟨et.flatten, resolvedShape et.shape X⟩ := by
  simp only [ExtractTensor.transform]
  cases hsv : resolvedShape et.shape X with
  | noneV => rfl
  | nanV => rfl
  | shapeV t =>
      by_cases hR : 0 < t.length
      · simp only [if_pos hR]
        cases padAll t X with
        | error e => rfl
        | ok xs => cases et.flatten <;> rfl
      · simp only [if_neg hR]

/-- Successful run of the padding transform: with a resolved non-scalar shape
`t` that every entry fits (ranks equal, extents pointwise at most `t`), the
result is the collection of padded entries, each flattened to a single axis
of `t.prod` cells when `flatten` is set. -/
theorem transform_padded_ok (fl : Bool) (sv : ShapeVal) (t : List Nat)
    (X : List Tensor) (hsv : resolvedShape sv X = .shapeV t)
    (hR : 0 < t.length) (hne : X ≠ [])
    (hfit : ∀ x ∈ X, x.shape.length = t.length ∧ fitsLe x.shape t = true) :
    ExtractTensor.transform ⟨fl, sv⟩ X =
      (⟨fl, .shapeV t⟩,
        .ok (if fl then X.map (fun x => ⟨[t.prod], padData x.shape t x.data⟩)
             else X.map (fun x => ⟨t, padData x.shape t x.data⟩))) := by
  simp only [ExtractTensor.transform]
  rw [hsv]
  simp only [if_pos hR, padAll_ok t X hfit]
  cases fl with
  | false =>
      have hstack : np_stack (X.map (fun x => ⟨t, padData x.shape t x.data⟩))
          = .ok (X.map (fun x => ⟨t, padData x.shape t x.data⟩)) := by
        apply np_stack_ok _ (by simpa using hne) t
        intro y hy
        obtain ⟨x, _, rfl⟩ := List.mem_map.mp hy
        rfl
      simpa using hstack
  | true =>
      have hmap : (X.map (fun x => (⟨t, padData x.shape t x.data⟩ : Tensor))).map np_flatten
          = X.map (fun x => (⟨[t.prod], padData x.shape t x.data⟩ : Tensor)) := by
        rw [List.map_map]
        rfl
      have hstack : np_stack (X.map (fun x => ⟨[t.prod], padData x.shape t x.data⟩))
          = .ok (X.map (fun x => ⟨[t.prod], padData x.shape t x.data⟩)) := by
        apply np_stack_ok _ (by simpa using hne) [t.prod]
        intro y hy
        obtain ⟨x, _, rfl⟩ := List.mem_map.mp hy
        rfl
      simpa [hmap] using hstack

theorem fitsLe_refl (t : List Nat) : fitsLe t t = true := by
  induction t with
  | nil => rfl
  | cons a as ih => rw [fitsLe_cons]; simp [ih]

/-- C2: whenever the resolved TargetShape `t` has positive rank and every
entry of the (non-empty) collection has the target's rank, extents pointwise
at most `t`, and well-formed data, the unflattened transform succeeds and
returns the padded entries, each of shape exactly `t`; at every in-bounds
multi-index of `t` the output cell equals the original cell at the same
multi-index when the index is within the original extents, and zero
otherwise — the original data occupies the low-index corner, and padding is
appended at the high end of each axis only. -/
theorem extractTensor_pad_round_trip (sv : ShapeVal) (t : List Nat)
    (X : List Tensor) (hsv : resolvedShape sv X = .shapeV t)
    (hR : 0 < t.length) (hne : X ≠ [])
    (hfit : ∀ x ∈ X, x.shape.length = t.length ∧ fitsLe x.shape t = true ∧
      x.data.length = x.shape.prod) :
    (ExtractTensor.transform ⟨false, sv⟩ X).2 =
      .ok (X.map (fun x => ⟨t, padData x.shape t x.data⟩)) ∧
    ∀ x ∈ X, (padData x.shape t x.data).length = t.prod ∧
      ∀ ix : List Nat, ix.length = t.length → idxLt ix t = true →
        (padData x.shape t x.data).getD (flatIdx t ix) 0 =
          if idxLt ix x.shape = true then x.data.getD (flatIdx x.shape ix) 0
          else 0 := by
  constructor
  · rw [transform_padded_ok false sv t X hsv hR hne
      (fun x hx => ⟨(hfit x hx).1, (hfit x hx).2.1⟩)]
    simp
  · intro x hx
    obtain ⟨h1, h2, h3⟩ := hfit x hx
    refine ⟨padData_length x.shape t x.data h1 h2 h3, ?_⟩
    intro ix hixlen hixlt
    exact padData_getD x.shape t ix x.data h1 h2 h3 hixlen hixlt

/-- Witness for `extractTensor_pad_round_trip` at the single rank-2 entry
`⟨(1,2), [7,8]⟩` padded to `(2,2)`. -/
theorem extractTensor_pad_round_trip_witness :
    (ExtractTensor.transform ⟨false, .shapeV [2, 2]⟩ [⟨[1, 2], [7, 8]⟩]).2 =
      .ok (([⟨[1, 2], [7, 8]⟩] : List Tensor).map
        (fun x => ⟨[2, 2], padData x.shape [2, 2] x.data⟩)) ∧
    ∀ x ∈ ([⟨[1, 2], [7, 8]⟩] : List Tensor),
      (padData x.shape [2, 2] x.data).length = ([2, 2] : List Nat).prod ∧
      ∀ ix : List Nat, ix.length = ([2, 2] : List Nat).length →
        idxLt ix [2, 2] = true →
        (padData x.shape [2, 2] x.data).getD (flatIdx [2, 2] ix) 0 =
          if idxLt ix x.shape = true then x.data.getD (flatIdx x.shape ix) 0
          else 0 :=
  extractTensor_pad_round_trip (.shapeV [2, 2]) [2, 2] [⟨[1, 2], [7, 8]⟩]
    (by decide) (by decide) (by decide) (by decide)

/-- C3: if some entry's extent along some axis strictly exceeds the resolved
TargetShape's extent on that axis (the pad width would be negative), the
transform raises instead of returning a collection — nothing is silently
truncated. -/
theorem extractTensor_oversize_error (fl : Bool) (sv : ShapeVal) (t : List Nat)
    (X : List Tensor) (x : Tensor) (hsv : resolvedShape sv X = .shapeV t)
    (hx : x ∈ X) (a : Nat) (ha : a < t.length)
    (hrank : x.shape.length = t.length)
    (hexceed : t.getD a 0 < x.shape.getD a 0) :
    ∃ e, (ExtractTensor.transform ⟨fl, sv⟩ X).2 = .error e := by
  have hR : 0 < t.length := by omega
  have hax : a < x.shape.length := by omega
  have hbad : fitsLe x.shape t = false := by
    cases hfl : fitsLe x.shape t with
    | false => rfl
    | true =>
        exfalso
        have hza : a < (x.shape.zip t).length := by
          rw [List.length_zip, hrank, Nat.min_self]
          exact ha
        have hzv : (x.shape.zip t)[a] = (x.shape[a], t[a]) := List.getElem_zip
        have hmem : (x.shape[a], t[a]) ∈ x.shape.zip t := by
          rw [← hzv]
          exact List.getElem_mem hza
        have hle := List.all_eq_true.mp hfl _ hmem
        simp only [decide_eq_true_eq] at hle
        have e1 : x.shape.getD a 0 = x.shape[a] := by
          rw [List.getD_eq_getElem?_getD, List.getElem?_eq_getElem hax]
          rfl
        have e2 : t.getD a 0 = t[a] := by
          rw [List.getD_eq_getElem?_getD, List.getElem?_eq_getElem ha]
          rfl
        rw [e1, e2] at hexceed
        omega
  cases hpa : padAll t X with
  | error e =>
      refine ⟨e, ?_⟩
      simp only [ExtractTensor.transform]
      rw [hsv]
      simp only [if_pos hR, hpa]
  | ok ys =>
      exfalso
      obtain ⟨y, hy⟩ := padAll_ok_forall t X ys hpa x hx
      rw [padTensor, if_pos hrank, hbad] at hy
      exact Except.noConfusion hy

/-- Witness for `extractTensor_oversize_error`: entries of extents 3 and 2
against the explicit shape `(2,)`. -/
theorem extractTensor_oversize_error_witness :
    ∃ e, (ExtractTensor.transform ⟨false, .shapeV [2]⟩
      [⟨[3], [1, 2, 3]⟩, ⟨[2], [4, 5]⟩]).2 = .error e :=
  extractTensor_oversize_error false (.shapeV [2]) [2]
    [⟨[3], [1, 2, 3]⟩, ⟨[2], [4, 5]⟩] ⟨[3], [1, 2, 3]⟩ (by decide)
    (by decide) 0 (by decide) (by decide) (by decide)

/-- C4: the shape attribute is a two-state machine.  Freshly constructed
without a shape, `get_shape` is `None`; constructed with an explicit shape,
`get_shape` is that shape.  A transform call that computes the shape leaves
the object holding it, `get_shape` then returns it, and every subsequent
transform call keeps the remembered shape and behaves exactly as the object
holding the remembered value — it never recomputes. -/
theorem extractTensor_shape_state_machine (fl : Bool) (t : List Nat)
    (X : List Tensor) (h : computeTargetShape X = some t) :
    ExtractTensor.get_shape (ExtractTensor.init fl none) = .noneV ∧
    ExtractTensor.get_shape (ExtractTensor.init fl (some t)) = .shapeV t ∧
    (ExtractTensor.transform ⟨fl, .noneV⟩ X).1 = ⟨fl, .shapeV t⟩ ∧
    ExtractTensor.get_shape (ExtractTensor.transform ⟨fl, .noneV⟩ X).1 =
      .shapeV t ∧
    ∀ Y : List Tensor,
      (ExtractTensor.transform ⟨fl, .shapeV t⟩ Y).1 = ⟨fl, .shapeV t⟩ ∧
      (ExtractTensor.transform ⟨fl, .shapeV t⟩ Y).2 =
        (ExtractTensor.transform (ExtractTensor.transform ⟨fl, .noneV⟩ X).1 Y).2 := by
  have hres : resolvedShape ShapeVal.noneV X = .shapeV t := by
    simp [resolvedShape, h]
  have hfst : (ExtractTensor.transform ⟨fl, .noneV⟩ X).1 = ⟨fl, .shapeV t⟩ := by
    rw [transform_fst]
    simp [hres]
  refine ⟨rfl, rfl, hfst, ?_, ?_⟩
  · rw [hfst]
    rfl
  · intro Y
    refine ⟨?_, ?_⟩
    · rw [transform_fst]
      rfl
    · rw [hfst]

/-- Witness for `extractTensor_shape_state_machine` at the collection
`[⟨(2,), [1,2]⟩]`, whose computed shape is `(2,)`. -/
theorem extractTensor_shape_state_machine_witness :
    ExtractTensor.get_shape (ExtractTensor.init false none) = .noneV ∧
    ExtractTensor.get_shape (ExtractTensor.init false (some [2])) = .shapeV [2] ∧
    (ExtractTensor.transform ⟨false, .noneV⟩ [⟨[2], [1, 2]⟩]).1 =
      ⟨false, .shapeV [2]⟩ ∧
    ExtractTensor.get_shape
      (ExtractTensor.transform ⟨false, .noneV⟩ [⟨[2], [1, 2]⟩]).1 = .shapeV [2] ∧
    ∀ Y : List Tensor,
      (ExtractTensor.transform ⟨false, .shapeV [2]⟩ Y).1 = ⟨false, .shapeV [2]⟩ ∧
      (ExtractTensor.transform ⟨false, .shapeV [2]⟩ Y).2 =
        (ExtractTensor.transform
          (ExtractTensor.transform ⟨false, .noneV⟩ [⟨[2], [1, 2]⟩]).1 Y).2 :=
  extractTensor_shape_state_machine false [2] [⟨[2], [1, 2]⟩] (by decide)

/-- C5 (amended): for a non-empty collection whose entries fit the resolved
non-scalar TargetShape `t`, the flattening transform returns one rank-1 entry
of exactly `t.prod` cells per input entry, and reshaping each flattened entry
back to `t` (row-major) gives exactly the corresponding entry of the
unflattened transform.  (On the empty collection the source raises in
`np.stack` instead of returning an empty collection, hence the non-empty
hypothesis.) -/
theorem extractTensor_flatten_consistent (sv : ShapeVal) (t : List Nat)
    (X : List Tensor) (hsv : resolvedShape sv X = .shapeV t)
    (hR : 0 < t.length) (hne : X ≠ [])
    (hfit : ∀ x ∈ X, x.shape.length = t.length ∧ fitsLe x.shape t = true ∧
      x.data.length = x.shape.prod) :
    (ExtractTensor.transform ⟨true, sv⟩ X).2 =
      .ok (X.map (fun x => ⟨[t.prod], padData x.shape t x.data⟩)) ∧
    (∀ x ∈ X, (padData x.shape t x.data).length = t.prod) ∧
    X.map (fun x => np_reshape t ⟨[t.prod], padData x.shape t x.data⟩) =
      X.map (fun x => Except.ok (⟨t, padData x.shape t x.data⟩ : Tensor)) ∧
    (ExtractTensor.transform ⟨false, sv⟩ X).2 =
      .ok (X.map (fun x => ⟨t, padData x.shape t x.data⟩)) := by
  have hfit' : ∀ x ∈ X, x.shape.length = t.length ∧ fitsLe x.shape t = true :=
    fun x hx => ⟨(hfit x hx).1, (hfit x hx).2.1⟩
  have hlen : ∀ x ∈ X, (padData x.shape t x.data).length = t.prod := by
    intro x hx
    obtain ⟨h1, h2, h3⟩ := hfit x hx
    exact padData_length x.shape t x.data h1 h2 h3
  refine ⟨?_, hlen, ?_, ?_⟩
  · rw [transform_padded_ok true sv t X hsv hR hne hfit']
    simp
  · apply List.map_congr_left
    intro x hx
    simp [np_reshape, hlen x hx]
  · rw [transform_padded_ok false sv t X hsv hR hne hfit']
    simp

/-- C5 (counterexample): on the empty collection — which vacuously satisfies
the fitting hypotheses — the flattening transform does not return an empty
collection; `np.stack` raises. -/
theorem extractTensor_flatten_empty_cex :
    (ExtractTensor.transform ⟨true, .shapeV [2]⟩ ([] : List Tensor)).2 =
      .error .stackEmpty := by decide

/-- Witness for `extractTensor_flatten_consistent` at the single entry
`⟨(2,1), [3,4]⟩` padded to `(2,2)`. -/
theorem extractTensor_flatten_consistent_witness :
    (ExtractTensor.transform ⟨true, .shapeV [2, 2]⟩ [⟨[2, 1], [3, 4]⟩]).2 =
      .ok (([⟨[2, 1], [3, 4]⟩] : List Tensor).map
        (fun x => ⟨[([2, 2] : List Nat).prod], padData x.shape [2, 2] x.data⟩)) ∧
    (∀ x ∈ ([⟨[2, 1], [3, 4]⟩] : List Tensor),
      (padData x.shape [2, 2] x.data).length = ([2, 2] : List Nat).prod) ∧
    ([⟨[2, 1], [3, 4]⟩] : List Tensor).map
        (fun x => np_reshape [2, 2]
          ⟨[([2, 2] : List Nat).prod], padData x.shape [2, 2] x.data⟩) =
      ([⟨[2, 1], [3, 4]⟩] : List Tensor).map
        (fun x => Except.ok (⟨[2, 2], padData x.shape [2, 2] x.data⟩ : Tensor)) ∧
    (ExtractTensor.transform ⟨false, .shapeV [2, 2]⟩ [⟨[2, 1], [3, 4]⟩]).2 =
      .ok (([⟨[2, 1], [3, 4]⟩] : List Tensor).map
        (fun x => ⟨[2, 2], padData x.shape [2, 2] x.data⟩)) :=
  extractTensor_flatten_consistent (.shapeV [2, 2]) [2, 2] [⟨[2, 1], [3, 4]⟩]
    (by decide) (by decide) (by decide) (by decide)

/-- C6 (amended): a non-empty collection whose entries already all have
exactly the target shape is returned unchanged by the transform with that
shape stored — every pad width is zero.  (On the empty collection the source
raises in `np.stack`, hence the non-empty hypothesis.) -/
theorem extractTensor_idempotent (t : List Nat) (X : List Tensor) (hne : X ≠ [])
    (hX : ∀ x ∈ X, x.shape = t ∧ x.data.length = t.prod) :
    ExtractTensor.transform ⟨false, .shapeV t⟩ X = (⟨false, .shapeV t⟩, .ok X) := by
  by_cases hR : 0 < t.length
  · have hfit : ∀ x ∈ X, x.shape.length = t.length ∧ fitsLe x.shape t = true := by
      intro x hx
      obtain ⟨h1, _⟩ := hX x hx
      exact ⟨by rw [h1], by rw [h1]; exact fitsLe_refl t⟩
    rw [transform_padded_ok false (.shapeV t) t X rfl hR hne hfit]
    have hmap : X.map (fun x => (⟨t, padData x.shape t x.data⟩ : Tensor)) = X := by
      conv_rhs => rw [← List.map_id X]
      apply List.map_congr_left
      intro x hx
      obtain ⟨h1, h2⟩ := hX x hx
      have hpd : padData x.shape t x.data = x.data := by
        rw [h1]
        exact padData_self t x.data h2
      rw [hpd, ← h1]
      rfl
    simp [hmap]
  · have ht : t = [] := List.length_eq_zero.mp (by omega)
    subst ht
    have hstack : np_stack X = .ok X :=
      np_stack_ok X hne [] (fun x hx => (hX x hx).1)
    simp only [ExtractTensor.transform, resolvedShape]
    simp [hstack]

/-- C6 (counterexample): the empty collection vacuously consists of entries
of shape `(1,)`, yet the transform with that same shape raises in `np.stack`
instead of returning the empty collection unchanged. -/
theorem extractTensor_idempotent_empty_cex :
    ExtractTensor.transform ⟨false, .shapeV [1]⟩ ([] : List Tensor) =
      (⟨false, .shapeV [1]⟩, .error .stackEmpty) := by decide

/-- Witness for `extractTensor_idempotent` at `[⟨(2,), [1,2]⟩]` with shape
`(2,)`. -/
theorem extractTensor_idempotent_witness :
    ExtractTensor.transform ⟨false, .shapeV [2]⟩ [⟨[2], [1, 2]⟩] =
      (⟨false, .shapeV [2]⟩, .ok [⟨[2], [1, 2]⟩]) :=
  extractTensor_idempotent [2] [⟨[2], [1, 2]⟩] (by decide) (by decide)

/-- C7: on the empty collection with no stored shape, the transform fails —
`Series.max()` yields `nan`, which is remembered in place of a shape, and
`len(nan)` raises before any output is produced; no actual TargetShape and no
output collection result. -/
theorem extractTensor_empty_input_error (fl : Bool) :
    ExtractTensor.transform ⟨fl, .noneV⟩ ([] : List Tensor) =
      (⟨fl, .nanV⟩, .error .emptyInput) := rfl

/-! ### The outlier filter -/

theorem bool_and_shuffle (a b c : Bool) : ((c && b) && a) = ((a && b) && c) := by
  cases a <;> cases b <;> cases c <;> rfl

theorem filterFold_ok (fd : List (String × Int × Int)) (X : DataFrame)
    (hkeys : ∀ kv ∈ fd, X.cols.contains kv.1 = true) :
    filterFold fd X =
      .ok ⟨X.cols, X.rows.filter (fun r =>
        fd.all (fun kv =>
          cellTest (fun v => decide (kv.2.1 ≤ v) && decide (v ≤ kv.2.2))
            kv.1 r))⟩ := by
  induction fd generalizing X with
  | nil => simp [filterFold]
  | cons kv fd ih =>
      have hk := hkeys kv (List.mem_cons_self _ _)
      rw [filterFold, if_pos hk,
        ih ⟨X.cols,
          (X.rows.filter (cellTest (fun v => decide (kv.2.1 ≤ v)) kv.1)).filter
            (cellTest (fun v => decide (v ≤ kv.2.2)) kv.1)⟩
          (fun kv' h' => hkeys kv' (List.mem_cons_of_mem _ h'))]
      congr 2
      rw [List.filter_filter, List.filter_filter]
      apply List.filter_congr
      intro r _
      simp only [List.all_cons]
      cases hcv : colVal? r kv.1 with
      | none => simp [cellTest, hcv]
      | some v =>
          simp only [cellTest, hcv, Option.map_some', Option.getD_some]
          exact bool_and_shuffle _ _ _

theorem filterFold_missing_key (fd : List (String × Int × Int))
    (X : DataFrame) (kv : String × Int × Int) (hkv : kv ∈ fd)
    (hmiss : X.cols.contains kv.1 = false) :
    ∃ k, filterFold fd X = .error (.keyError k) := by
  induction fd generalizing X with
  | nil => simp at hkv
  | cons kv' fd ih =>
      by_cases hk' : X.cols.contains kv'.1 = true
      · rcases List.mem_cons.mp hkv with rfl | h
        · rw [hk'] at hmiss
          exact absurd hmiss (by simp)
        · rw [filterFold, if_pos hk']
          exact ih _ h hmiss
      · rw [filterFold, if_neg hk']
        exact ⟨kv'.1, rfl⟩

/-- The transform surfaces `KeyError` when a filter key is not a column of
the dataset, exactly as `x[key]` does on line 50 of the source. -/
theorem removeOutliers_missing_key_error (fd : List (String × Int × Int))
    (X : DataFrame) (kv : String × Int × Int) (hkv : kv ∈ fd)
    (hmiss : X.cols.contains kv.1 = false) :
    ∃ k, RemoveOutliers.transform ⟨some fd⟩ X = .error (.keyError k) :=
  filterFold_missing_key fd X kv hkv hmiss

/-- Witness for `removeOutliers_missing_key_error`: filtering on column `b`
of a one-column dataset with column `a` only. -/
theorem removeOutliers_missing_key_error_witness :
    ∃ k, RemoveOutliers.transform ⟨some [("b", 1, 3)]⟩
      ⟨["a"], [[("a", 2)]]⟩ = .error (.keyError k) :=
  removeOutliers_missing_key_error [("b", 1, 3)] ⟨["a"], [[("a", 2)]]⟩
    ("b", 1, 3) (by decide) (by decide)

/-- C8: on a well-formed dataframe whose column index has every filtered key
(each `x[key]` access of line 50-51 is then defined; a key that is no column
raises `KeyError` instead, see `removeOutliers_missing_key_error`), the
outlier filter returns, without raising, exactly the rows whose cell in every
filtered column lies within that column's closed interval; every other row is
dropped entirely, the kept rows are the original rows in their original order
(a sublist of the input rows) with the column index unchanged, with no filter
dictionary the input is returned as is, and every filtered column's cell
exists in every row, so no keep/drop decision is made on a default. -/
theorem removeOutliers_filter_spec (fd : List (String × Int × Int))
    (X : DataFrame) (hwf : X.wellFormed = true)
    (hkeys : ∀ kv ∈ fd, X.cols.contains kv.1 = true) :
    RemoveOutliers.transform ⟨some fd⟩ X =
      .ok ⟨X.cols, X.rows.filter (fun r =>
        fd.all (fun kv =>
          cellTest (fun v => decide (kv.2.1 ≤ v) && decide (v ≤ kv.2.2))
            kv.1 r))⟩ ∧
    List.Sublist
      (X.rows.filter (fun r =>
        fd.all (fun kv =>
          cellTest (fun v => decide (kv.2.1 ≤ v) && decide (v ≤ kv.2.2))
            kv.1 r)))
      X.rows ∧
    RemoveOutliers.transform ⟨none⟩ X = .ok X ∧
    ∀ kv ∈ fd, ∀ r ∈ X.rows, ∃ v, colVal? r kv.1 = some v := by
  refine ⟨filterFold_ok fd X hkeys, List.filter_sublist X.rows, rfl, ?_⟩
  intro kv hkv r hr
  simp only [DataFrame.wellFormed] at hwf
  have hrow := List.all_eq_true.mp hwf r hr
  have hcol : kv.1 ∈ X.cols := List.mem_of_elem_eq_true (hkeys kv hkv)
  have hsome := List.all_eq_true.mp hrow kv.1 hcol
  exact Option.isSome_iff_exists.mp hsome

/-- Witness for `removeOutliers_filter_spec`: interval `[1,3]` on column `a`
keeps the row with cell 2 and drops the row with cell 5. -/
theorem removeOutliers_filter_spec_witness :
    RemoveOutliers.transform ⟨some [("a", 1, 3)]⟩
        ⟨["a"], [[("a", 2)], [("a", 5)]]⟩ =
      .ok ⟨["a"], ([[("a", 2)], [("a", 5)]] : List Row).filter (fun r =>
        ([("a", 1, 3)] : List (String × Int × Int)).all (fun kv =>
          cellTest (fun v => decide (kv.2.1 ≤ v) && decide (v ≤ kv.2.2))
            kv.1 r))⟩ ∧
    List.Sublist
      (([[("a", 2)], [("a", 5)]] : List Row).filter (fun r =>
        ([("a", 1, 3)] : List (String × Int × Int)).all (fun kv =>
          cellTest (fun v => decide (kv.2.1 ≤ v) && decide (v ≤ kv.2.2))
            kv.1 r)))
      ([[("a", 2)], [("a", 5)]] : List Row) ∧
    RemoveOutliers.transform ⟨none⟩ ⟨["a"], [[("a", 2)], [("a", 5)]]⟩ =
      .ok ⟨["a"], [[("a", 2)], [("a", 5)]]⟩ ∧
    ∀ kv ∈ ([("a", 1, 3)] : List (String × Int × Int)),
      ∀ r ∈ ([[("a", 2)], [("a", 5)]] : List Row),
        ∃ v, colVal? r kv.1 = some v :=
  removeOutliers_filter_spec [("a", 1, 3)] ⟨["a"], [[("a", 2)], [("a", 5)]]⟩
    (by decide) (by decide)

/-! ### The cross-validation viewer -/

/-- C10: for every estimator, `test_mean` and `test_std` raise — the
attribute `loc` is looked up on the bound method `best_results` itself, not
on the dataframe the method would return — and in particular neither ever
returns a score. -/
theorem viewCV_test_mean_std_raise (v : ViewCV) :
    ViewCV.test_mean v = .error (.attributeError "loc") ∧
    ViewCV.test_std v = .error (.attributeError "loc") ∧
    ∀ x : PyVal, ViewCV.test_mean v ≠ .ok x ∧ ViewCV.test_std v ≠ .ok x := by
  refine ⟨rfl, rfl, ?_⟩
  intro x
  exact ⟨fun hc => Except.noConfusion hc, fun hc => Except.noConfusion hc⟩
